import Mathlib

/-!
Shallow embedding of the proxyc in-process interception and chaining engine
(crates proxyc-common and libproxyc), together with theorems settling the
claims about its specification.

Machine integers are modelled as Nat with explicit masking written as
percent powers of two; strings are Lean strings; raw sockets are modelled
by explicit response-byte lists and result oracles for the operating
system calls that live outside the repository.
-/

namespace Proxyc

/-! ## Data model (proxyc-common, src/common/src/lib.rs) -/

/-- ProxyType from proxyc-common: Raw, Http, Socks4, Socks5. -/
inductive ProxyType where
  | Raw
  | Http
  | Socks4
  | Socks5
deriving DecidableEq

/-- Auth from proxyc-common: UserPassword(String, String).
The two strings are modelled at byte level as lists of octets. -/
inductive Auth where
  | UserPassword (user pass : List Nat)
deriving DecidableEq

/-- std::net::IpAddr restricted to what the core manipulates:
an IPv4 address is its u32 value, an IPv6 address its 16 octets. -/
inductive IpAddr where
  | v4 (n : Nat)
  | v6 (octets : List Nat)
deriving DecidableEq

/-- ProxyConf from proxyc-common. -/
structure ProxyConf where
  proto : ProxyType
  ip : IpAddr
  port : Nat
  auth : Option Auth
deriving DecidableEq

/-- ChainType from proxyc-common. -/
inductive ChainType where
  | Strict
  | Dynamic
  | Random
deriving DecidableEq

/-- IgnoreSubnet from proxyc-common: an IPv4 CIDR (base address and prefix
length) and an optional port. -/
structure IgnoreSubnet where
  cidrBase : Nat
  cidrPrefixLen : Nat
  port : Option Nat
deriving DecidableEq

/-- ProxycConfig from proxyc-common (the process-wide singleton CONFIG). -/
structure ProxycConfig where
  proxies : List ProxyConf
  chainType : ChainType
  tcpReadTimeout : Nat := 15000
  tcpConnectTimeout : Nat := 8000
  proxyDns : Bool := true
  dnsSubnet : Nat := 224
  ignoreSubnets : List IgnoreSubnet := []
deriving DecidableEq

/-- Error from src/libproxyc/src/error.rs. The Socket and Connect spellings
are the ones used by core.rs; IoE carries the message of a wrapped
std::io::Error and ErrnoE a raw errno value. -/
inductive Error where
  | Timeout
  | Socket
  | Connect (msg : String)
  | MissingData
  | Generic (msg : String)
  | IoE (msg : String)
  | ErrnoE (e : Nat)
deriving DecidableEq

instance {α β : Type} [DecidableEq α] [DecidableEq β] : DecidableEq (Except α β) := fun
  | .ok a, .ok b =>
    if h : a = b then .isTrue (by rw [h]) else .isFalse (by intro hc; cases hc; exact h rfl)
  | .error a, .error b =>
    if h : a = b then .isTrue (by rw [h]) else .isFalse (by intro hc; cases hc; exact h rfl)
  | .ok _, .error _ => .isFalse (by intro hc; cases hc)
  | .error _, .ok _ => .isFalse (by intro hc; cases hc)

/-! ## Fake-DNS table (InternalIpAddr, src/libproxyc/src/core.rs 286-344) -/

/-- The HashMap from u32 indexes to hostnames, modelled as an association
list; insertion prepends, lookup returns the first matching key. -/
def lookupTbl (t : List (Nat × String)) (k : Nat) : Option String :=
  (t.find? (fun e => e.fst == k)).map (fun e => e.snd)

/-- Ipv4Addr::from([a, b, c, d]) as a u32 value. -/
def ofOctets (a b c d : Nat) : Nat :=
  a * 16777216 + b * 65536 + c * 256 + d

/-- InternalIpAddr::make_addr: the synthetic IPv4 for a table index, built
from the configured dns_subnet and the three low-order bytes of the index
(source writes the byte extractions with bit masks and shifts). -/
def makeAddr (cfg : ProxycConfig) (idx : Nat) : Nat :=
  ofOctets cfg.dnsSubnet (idx / 65536 % 256) (idx / 256 % 256) (idx % 256)

/-- The InternalIpAddr state: the hostname table and the index counter. -/
structure InternalIpAddr where
  table : List (Nat × String)
  idx : Nat
deriving DecidableEq

/-- InternalIpAddr::get_hostname: mask the index to its low 24 bits
(source: idx & 0x00FFFFFF) and look it up, MissingData on a miss. -/
def getHostname (s : InternalIpAddr) (idx : Nat) : Except Error String :=
  match lookupTbl s.table (idx % 16777216) with
  | some v => .ok v
  | none => .error .MissingData

/-- InternalIpAddr::assign_addr. The counter is incremented first; then the
exhaustion check (idx > 0xFFFFFF); then, when idx > 1, a scan of indexes
1..idx-1 for an existing entry with this hostname, returning the existing
synthetic address on a hit; otherwise the hostname is inserted at the new
index. The state is returned alongside the result because the counter
increment persists on every path, including the scan hit and the
exhaustion error. -/
def assignAddr (cfg : ProxycConfig) (s : InternalIpAddr) (hn : String) :
    Except Error Nat × InternalIpAddr :=
  if 16777215 < s.idx + 1 then
    (.error (.Generic ("exhausted internal ip addresses")), { s with idx := s.idx + 1 })
  else
    match (if 1 < s.idx + 1 then
        (List.range' 1 s.idx).find? (fun i => lookupTbl s.table i == some hn)
      else none) with
    | some i => (.ok (makeAddr cfg i), { s with idx := s.idx + 1 })
    | none =>
      (.ok (makeAddr cfg (s.idx + 1)), { table := (s.idx + 1, hn) :: s.table, idx := s.idx + 1 })

/-- Well-formedness of the table state: every key lies between 1 and the
counter and below the 24-bit bound, keys are pairwise distinct, and
hostnames are pairwise distinct. This holds of the initial empty state and
is preserved by assign_addr. -/
def WFState (s : InternalIpAddr) : Prop :=
  (∀ e ∈ s.table, 1 ≤ e.fst ∧ e.fst ≤ s.idx ∧ e.fst ≤ 16777215) ∧
  s.table.Pairwise (fun a b => a.fst ≠ b.fst ∧ a.snd ≠ b.snd)

/-- States reachable from a given table state by any sequence of
assign_addr calls, successful or not. -/
inductive Reach (cfg : ProxycConfig) : InternalIpAddr → InternalIpAddr → Prop where
  | refl (s : InternalIpAddr) : Reach cfg s s
  | step (s t u : InternalIpAddr) (hn : String) (r : Except Error Nat) :
      Reach cfg s t → assignAddr cfg t hn = (r, u) → Reach cfg s u

/-! ## SOCKS5 driver (src/libproxyc/src/proxy/socks.rs) -/

/-- Socks5::auth_id: the single method byte sent during negotiation,
0x02 for user/password auth on this hop, 0x00 for none. -/
def authId : Option Auth → Nat
  | some (.UserPassword _ _) => 2
  | none => 0

/-- The three-byte method-negotiation packet built at the start of
Socks5::connect (socks.rs 229-238): version 5, then the methods count —
computed in the source from target.auth, the auth field of the NEXT hop —
then the single method byte computed from the auth argument of this hop. -/
def socks5MethodPacket (target : ProxyConf) (auth : Option Auth) : List Nat :=
  [5,
   match target.auth with
   | some _ => 2
   | none => 1,
   authId auth]

/-- find_ip_hostname (socks.rs 166-182): reverse-map an address to a
hostname. None when proxy_dns is off; for an IPv4 address whose leading
octet equals dns_subnet, the table lookup of its u32 value (which
get_hostname masks to 24 bits), converted from Result to Option; None
otherwise. -/
def findIpHostname (cfg : ProxycConfig) (s : InternalIpAddr) (ip : IpAddr) : Option String :=
  if !cfg.proxyDns then none
  else
    match ip with
    | .v4 n =>
      if n / 16777216 % 256 = cfg.dnsSubnet then
        match getHostname s n with
        | .ok v => some v
        | .error _ => none
      else none
    | .v6 _ => none

/-- write_hostname (socks.rs 85-93): ATYP 3 (DOMAINNAME), hostname length,
hostname bytes, then the port in big-endian. The source converts the
length to u8 with an unwrap that panics above 255; the claims never
involve hostnames that long, so the length is kept as a Nat here. -/
def writeHostname (target : ProxyConf) (hn : String) : List Nat :=
  3 :: hn.length :: (hn.data.map Char.toNat ++ [target.port / 256 % 256, target.port % 256])

/-- write_addr (socks.rs 95-110): ATYP 1 with the four IPv4 octets, or
ATYP 4 with the sixteen IPv6 octets, then the port in big-endian. -/
def writeAddrBytes (target : ProxyConf) : List Nat :=
  match target.ip with
  | .v4 n =>
    1 :: [n / 16777216 % 256, n / 65536 % 256, n / 256 % 256, n % 256,
          target.port / 256 % 256, target.port % 256]
  | .v6 octets =>
    4 :: (octets ++ [target.port / 256 % 256, target.port % 256])

/-- The address portion of the SOCKS5 CONNECT request as built by
Socks5::connect (socks.rs 265-278): write_hostname on a reverse-map hit,
write_addr otherwise. -/
def socks5AddrBytes (cfg : ProxycConfig) (s : InternalIpAddr) (target : ProxyConf) : List Nat :=
  match findIpHostname cfg s target.ip with
  | some hn => writeHostname target hn
  | none => writeAddrBytes target

/-! ## HTTP driver (src/libproxyc/src/proxy/http.rs) -/

/-- The terminator test of the read loop (http.rs 31-36): after the byte at
index len-1 has been read, the last four bytes read are CR LF CR LF.
Positions below len coincide with the response bytes. -/
def isTermAt (resp : List Nat) (len : Nat) : Bool :=
  (resp.getD (len - 1) 0 == 10) && (resp.getD (len - 2) 0 == 13) &&
  (resp.getD (len - 3) 0 == 10) && (resp.getD (len - 4) 0 == 13)

/-- The byte-by-byte read loop of Http::connect (http.rs 26-39). The
response argument lists the bytes the proxy will deliver before stalling;
running out of bytes is the per-byte read timeout. The fuel argument is
1024 minus len; the loop returns the final value of len, breaking at the
first len greater than 4 whose last four bytes are the terminator. -/
def httpReadLoop (resp : List Nat) : Nat → Nat → Except Error Nat
  | len, 0 => .ok len
  | len, fuel + 1 =>
    match resp.get? len with
    | none => .error .Timeout
    | some _ =>
      if 4 < len + 1 && isTermAt resp (len + 1) then .ok (len + 1)
      else httpReadLoop resp (len + 1) fuel

/-- The 1024-byte buffer after the loop: position i holds the response byte
when i was read (i < len) and the calloc-style zero fill otherwise. -/
def bufAt (resp : List Nat) (len i : Nat) : Nat :=
  if i < len then resp.getD i 0 else 0

/-- Http::connect (http.rs 15-47) success logic. The CONNECT request write
does not influence the result and is omitted; the driver then runs the
read loop and succeeds iff len is not 1024 and buffer positions 9, 10, 11
hold the ASCII digits 2, 0, 0. -/
def httpConnect (resp : List Nat) : Except Error Unit :=
  match httpReadLoop resp 0 1024 with
  | .error e => .error e
  | .ok len =>
    if len == 1024 ||
        !((bufAt resp len 9 == 50) && (bufAt resp len 10 == 48) && (bufAt resp len 11 == 48)) then
      .error (.IoE ("HTTP proxy blocked"))
    else .ok ()

/-- Reference scan: the first len in 1..1024 at which the read loop would
break, that is len > 4 and the four bytes ending at index len-1 are the
terminator. -/
def httpFirstTerm (resp : List Nat) : Option Nat :=
  (List.range' 1 1024).find? (fun k => decide (4 < k) && isTermAt resp k)

/-- The acceptance condition exactly as the claim states it: the response
contains the terminator CR LF CR LF somewhere within its first 1024 bytes
and its bytes at positions 9, 10, 11 are the ASCII digits 2, 0, 0. -/
def claimHttpAccepts (resp : List Nat) : Bool :=
  ((List.range 1021).any fun j =>
    (resp.getD j 0 == 13) && (resp.getD (j + 1) 0 == 10) &&
    (resp.getD (j + 2) 0 == 13) && (resp.getD (j + 3) 0 == 10)) &&
  (resp.getD 9 0 == 50) && (resp.getD 10 0 == 48) && (resp.getD 11 0 == 48)

/-! ## timed_connect (src/libproxyc/src/core.rs 86-128) -/

/-- EINPROGRESS on Linux. -/
def einprogress : Nat := 115

/-- The flag word value fcntl F_SETFL(O_NONBLOCK) installs at entry of
timed_connect (O_NONBLOCK alone, 0o4000 on Linux). -/
def oNONBLOCK : Nat := 2048

/-- The outcomes of the system calls timed_connect performs on the scratch
socket: the raw connect return value and errno, the poll_retry outcome,
and the SO_ERROR value read by getsockopt. -/
structure ConnEnv where
  res : Int
  connErrno : Nat
  pollRes : Except Error Int
  sockErr : Except Error Nat
deriving DecidableEq

/-- The tail of timed_connect reached by falling out of the EINPROGRESS
block (core.rs 117-127): the O_NONBLOCK toggle is undone (the flag word
returns to empty) and the raw connect result is translated, treating
EINPROGRESS as success. -/
def timedConnectTail (env : ConnEnv) : Except Error Unit × Nat :=
  (if env.res = -1 then
     (if env.connErrno = einprogress then .ok () else .error (.ErrnoE env.connErrno))
   else .ok (), 0)

/-- timed_connect (core.rs 86-128). The second component of the result is
the flag word of the socket at return: 0 when the non-blocking toggle has
been undone, oNONBLOCK when the function returned with the socket still
non-blocking. The early returns inside the EINPROGRESS block (the
question-mark on poll_retry, the question-mark on getsockopt, the Socket
error and the poll_retry Connect error) happen before the toggle is
undone. -/
def timedConnect (env : ConnEnv) : Except Error Unit × Nat :=
  if env.res = -1 ∧ env.connErrno = einprogress then
    match env.pollRes with
    | .error e => (.error e, oNONBLOCK)
    | .ok ret =>
      if ret = 1 then
        match env.sockErr with
        | .error e => (.error e, oNONBLOCK)
        | .ok 0 => timedConnectTail env
        | .ok _ => (.error .Socket, oNONBLOCK)
      else (.error (.Connect ("poll_retry")), oNONBLOCK)
  else timedConnectTail env

/-- The condition under which timed_connect returns early from inside the
EINPROGRESS block, before the non-blocking toggle is undone. -/
def timedConnectEarlyExit (env : ConnEnv) : Bool :=
  decide (env.res = -1) && (env.connErrno == einprogress) &&
  (match env.pollRes with
   | .error _ => true
   | .ok ret => decide (ret ≠ 1) || (decide (ret = 1) && decide (env.sockErr ≠ .ok 0)))

/-! ## Chain engine (src/libproxyc/src/core.rs 176-255) -/

/-- The observable actions of connect_proxyc on the scratch socket:
the timed connect to the first proxy with the connect-timeout budget,
a driver invocation (protocol of the hop, auth of the hop, next hop),
the dup2 of the scratch fd over the caller fd, and the close of the
scratch fd. -/
inductive ChainEvent where
  | start (p : ProxyConf) (timeoutMs : Nat)
  | drive (proto : ProxyType) (auth : Option Auth) (nextHop : ProxyConf)
  | dupTwo (oldFd newFd : Nat)
  | closeFd (fd : Nat)
deriving DecidableEq

/-- The events a single chain_step emits: nothing for Raw (a no-op in the
source match), one driver invocation otherwise. -/
def stepEvents (pfrom pto : ProxyConf) : List ChainEvent :=
  match pfrom.proto with
  | .Raw => []
  | p => [ChainEvent.drive p pfrom.auth pto]

/-- chain_step (core.rs 185-194): dispatch on the protocol of the from
hop; Raw returns Ok without any I/O, the other drivers are invoked with
the next hop and the auth of the from hop. Driver outcomes are supplied by
the oracle orc, indexed by a running invocation counter. -/
def chainStep (orc : Nat → Except Error Unit) (k : Nat) (pfrom pto : ProxyConf) :
    Except Error Unit × List ChainEvent × Nat :=
  match pfrom.proto with
  | .Raw => (.ok (), [], k)
  | p => (orc k, [ChainEvent.drive p pfrom.auth pto], k + 1)

/-- The for loop over proxies.windows(2) in connect_proxyc (core.rs
235-237), with the question-mark early return on a step failure. -/
def chainLoop (orc : Nat → Except Error Unit) :
    Nat → List ProxyConf → Except Error Unit × List ChainEvent × Nat
  | k, p1 :: p2 :: rest =>
    match chainStep orc k p1 p2 with
    | (.error e, evs, k1) => (.error e, evs, k1)
    | (.ok _, evs, k1) =>
      match chainLoop orc k1 (p2 :: rest) with
      | (r, evs2, k2) => (r, evs ++ evs2, k2)
  | k, _ => (.ok (), [], k)

/-- connect_proxyc (core.rs 197-255). The target sockaddr has already been
converted to an ip and port; the Raw ProxyConf built from it is the final
next hop. Under Strict: chain_start (a timed connect to the first proxy
with the tcp_connect_timeout budget, oracle index 0), then the windows
loop, then a final chain_step from the last proxy to the target; on
success dup2(ns, sock) then close(ns). Any other chain type is the
"chain type not handled" error. The expect on an empty proxy list is a
panic in the source, modelled as a distinct error. -/
def connectProxyc (cfg : ProxycConfig) (orc : Nat → Except Error Unit)
    (sock ns : Nat) (targetIp : IpAddr) (targetPort : Nat) :
    Except Error Unit × List ChainEvent :=
  let targetConf : ProxyConf := { proto := .Raw, ip := targetIp, port := targetPort, auth := none }
  match cfg.chainType with
  | .Strict =>
    match cfg.proxies with
    | [] => (.error (.Generic ("panic: chain_start: empty proxy list")), [])
    | p1 :: rest =>
      let ev0 := ChainEvent.start p1 cfg.tcpConnectTimeout
      match orc 0 with
      | .error e => (.error e, [ev0])
      | .ok _ =>
        match chainLoop orc 1 cfg.proxies with
        | (.error e, evs, _) => (.error e, ev0 :: evs)
        | (.ok _, evs, k1) =>
          match chainStep orc k1 ((p1 :: rest).getLast (List.cons_ne_nil p1 rest)) targetConf with
          | (.error e, evs2, _) => (.error e, ev0 :: (evs ++ evs2))
          | (.ok _, evs2, _) =>
            (.ok (), ev0 :: (evs ++ evs2 ++ [ChainEvent.dupTwo ns sock, ChainEvent.closeFd ns]))
  | _ => (.error (.Generic ("chain type not handled")), [])

/-! ## The connect hook (src/libproxyc/src/hook/connect.rs 52-102),
chaining path (INET/INET6 stream socket, target not ignored) -/

/-- The outcomes of the system calls the hook performs: whether socket()
creating the scratch fd succeeds, the fcntl F_GETFL outcome on the caller
fd together with the flag word it reports, and the engine result. -/
structure HookEnv where
  flags0 : Nat
  sockOk : Bool
  getflOk : Bool
  engine : Except Error Unit
deriving DecidableEq

/-- What the hook leaves behind: the return value, the flag word of the
caller fd at return, whether no scratch fd is left open, and whether the
hook stored ECONNREFUSED into errno. -/
structure HookOut where
  ret : Int
  flags : Nat
  scratchClosed : Bool
  errnoConnRefused : Bool
deriving DecidableEq

/-- The chaining path of the hooked connect (hook/connect.rs 62-97).
socket() failure returns -1 before any scratch fd exists and without
touching errno; F_GETFL failure returns -1 leaving the scratch fd open and
errno untouched; otherwise the hook clears O_NONBLOCK from the caller fd
when set, runs the engine, and on engine success restores the original
flags and returns 0 (the restoring fcntl is modelled as succeeding), while
on engine failure it closes the scratch fd, stores ECONNREFUSED and
returns -1 without restoring the flags. -/
def hookConnectChained (env : HookEnv) : HookOut :=
  if !env.sockOk then
    { ret := -1, flags := env.flags0, scratchClosed := true, errnoConnRefused := false }
  else if !env.getflOk then
    { ret := -1, flags := env.flags0, scratchClosed := false, errnoConnRefused := false }
  else
    let fl1 := if env.flags0 &&& oNONBLOCK ≠ 0 then env.flags0 ^^^ oNONBLOCK else env.flags0
    match env.engine with
    | .ok _ =>
      { ret := 0, flags := env.flags0, scratchClosed := true, errnoConnRefused := false }
    | .error _ =>
      { ret := -1, flags := fl1, scratchClosed := true, errnoConnRefused := true }

/-! ## Resolver hooks (core.rs 346-509, hook/gethostbyname.rs,
hook/getaddrinfo.rs) -/

/-- proxyc_gethostbyname (core.rs 357-388): the hostname is passed to
assign_addr and the synthetic IPv4 is stored (big-endian in the source)
into the static hostent. There is no numeric-literal check in the source,
only TODO comments for one. -/
def proxycGethostbyname (cfg : ProxycConfig) (s : InternalIpAddr) (name : String) :
    Except Error Nat × InternalIpAddr :=
  assignAddr cfg s name

/-- The gethostbyname hook (hook/gethostbyname.rs): with proxy_dns enabled
it fills the hostent from proxyc_gethostbyname (None models the null
pointer returned when that fails); otherwise it delegates to the real
resolver. -/
def hookGethostbyname (cfg : ProxycConfig) (s : InternalIpAddr)
    (realResolver : String → Option Nat) (name : String) :
    Option Nat × InternalIpAddr :=
  if cfg.proxyDns then
    match proxycGethostbyname cfg s name with
    | (.ok ip, s1) => (some ip, s1)
    | (.error _, s1) => (none, s1)
  else (realResolver name, s)

/-- AF_INET on Linux. -/
def afInet : Nat := 2

/-- AI_PASSIVE on Linux. -/
def aiPassive : Nat := 1

/-- AI_NUMERICHOST on Linux. -/
def aiNumerichost : Nat := 4

/-- EAI_NONAME on Linux. -/
def eaiNoname : Int := -2

/-- AI_V4MAPPED | AI_ADDRCONFIG, the default ai_flags installed when the
caller passed no hints. -/
def aiDefaultFlags : Nat := 40

/-- The fields of the caller-provided addrinfo hints that
proxyc_getaddrinfo reads (flag words as Nat bitmasks). -/
structure Hints where
  aiFlags : Nat
  aiSocktype : Nat
  aiProtocol : Nat
deriving DecidableEq

/-- What ends up in the sockaddr of the single allocated addrinfo block:
the parse of a numeric node string, the synthetic IPv4 copied from the
fake-DNS hostent, the 127.0.0.1 constant of the AI_PASSIVE branch, or the
calloc zero fill when no branch stores an address. -/
inductive GaiAddr where
  | literal (node : String)
  | synthetic (ip : Nat)
  | localhost
  | unspecified
deriving DecidableEq

/-- The addrinfo returned by proxyc_getaddrinfo. -/
structure GaiResult where
  family : Nat
  addr : GaiAddr
  port : Nat
  aiSocktype : Nat
  aiFlags : Nat
  aiProtocol : Nat
deriving DecidableEq

/-- proxyc_getaddrinfo (core.rs 391-509). numParse models
inet_aton/inet_pton on the node string, returning the address family on
success; servLookup models getservbyname_r; atoiBE models the atoi plus
to_be fallback. The overall Option is the definedness of the call: the
branch for a null node reads hints.ai_flags unconditionally, so a null
hints pointer there has no defined result (None). The calloc-failure
EAI_MEMORY path and the exhaustion panic inside the unwrap of
proxyc_gethostbyname are outside the claims and modelled as None as well.
On a defined run the result is the getaddrinfo return code, the addrinfo
produced (none for the EAI_NONAME return), and the table state. -/
def proxycGetaddrinfo (cfg : ProxycConfig) (s : InternalIpAddr)
    (numParse : String → Option Nat) (servLookup : String → Option Nat)
    (atoiBE : String → Nat) (node : Option String) (service : Option String)
    (hints : Option Hints) :
    Option ((Int × Option GaiResult) × InternalIpAddr) :=
  let port : Nat :=
    match service with
    | none => 0
    | some sv =>
      match servLookup sv with
      | some p => p
      | none => atoiBE sv
  let mkRes : Nat → GaiAddr → InternalIpAddr →
      Option ((Int × Option GaiResult) × InternalIpAddr) := fun af addr s1 =>
    some ((0,
      some { family := af, addr := addr, port := port,
             aiSocktype := match hints with | some h => h.aiSocktype | none => 0,
             aiFlags := match hints with | some h => h.aiFlags | none => aiDefaultFlags,
             aiProtocol := match hints with | some h => h.aiProtocol | none => 0 }), s1)
  match node with
  | some n =>
    match numParse n with
    | none =>
      if (match hints with
          | some h => h.aiFlags &&& aiNumerichost != 0
          | none => false) then
        some ((eaiNoname, none), s)
      else
        match proxycGethostbyname cfg s n with
        | (.ok ip, s1) => mkRes afInet (.synthetic ip) s1
        | (.error _, _) => none
    | some af => mkRes af (.literal n) s
  | none =>
    match hints with
    | none => none
    | some h =>
      if h.aiFlags &&& aiPassive != 0 then mkRes afInet .localhost s
      else mkRes afInet .unspecified s

/-! ## Concrete fixtures used by witnesses and counterexamples -/

/-- A minimal configuration with the default settings (proxy_dns on,
dns_subnet 224). -/
def cfgW : ProxycConfig := { proxies := [], chainType := .Strict }

/-- An HTTP hop fixture. -/
def p1W : ProxyConf := { proto := .Http, ip := .v4 (ofOctets 10 0 0 1), port := 3128, auth := none }

/-- A SOCKS5 hop fixture. -/
def p2W : ProxyConf := { proto := .Socks5, ip := .v4 (ofOctets 10 0 0 2), port := 1080, auth := none }

/-- A two-hop strict chain configuration. -/
def cfgChainW : ProxycConfig := { proxies := [p1W, p2W], chainType := .Strict }

/-- The Raw ProxyConf built from a caller target, as passed to the final
chain_step; its auth field is None. -/
def rawTargetW : ProxyConf :=
  { proto := .Raw, ip := .v4 (ofOctets 192 0 2 1), port := 443, auth := none }

/-- A user/password auth fixture (user "u", password "w"). -/
def authW : Auth := .UserPassword [117] [119]

/-- A response stream that opens with the terminator CR LF CR LF and whose
bytes 9, 10, 11 are the ASCII digits 2, 0, 0, then stalls. -/
def respW : List Nat := [13, 10, 13, 10, 120, 120, 120, 120, 120, 50, 48, 48]

/-- timed_connect system-call outcomes where the raw connect reports
EINPROGRESS and poll_retry then times out. -/
def envTimeoutW : ConnEnv :=
  { res := -1, connErrno := einprogress, pollRes := .error .Timeout, sockErr := .ok 0 }

/-- timed_connect system-call outcomes where the raw connect succeeds
immediately. -/
def envOkW : ConnEnv := { res := 0, connErrno := 0, pollRes := .ok 1, sockErr := .ok 0 }

/-- The all-success driver oracle. -/
def orcOkW : Nat → Except Error Unit := fun _ => .ok ()

/-- A hostname fixture. -/
def hnW : String := ("example.com")

end Proxyc

namespace Proxyc

/-! ## C1 -/

/-- C1: the claim states that every -1 return of the chaining path leaves
the caller fd flags unchanged, closes the scratch socket and stores
ECONNREFUSED. The code violates all three on concrete inputs: with
O_NONBLOCK set at entry and an engine failure the hook returns -1 with
O_NONBLOCK cleared instead of restored; with an F_GETFL failure it
returns -1 leaving the scratch fd open and errno untouched; with a
socket() failure it returns -1 without storing ECONNREFUSED. -/
theorem connect_hook_failure_exits_violate_claim :
    (hookConnectChained
        { flags0 := oNONBLOCK, sockOk := true, getflOk := true, engine := .error .Timeout }
      = { ret := -1, flags := 0, scratchClosed := true, errnoConnRefused := true }
      ∧ (0 : Nat) ≠ oNONBLOCK)
    ∧ hookConnectChained { flags0 := 0, sockOk := true, getflOk := false, engine := .ok () }
      = { ret := -1, flags := 0, scratchClosed := false, errnoConnRefused := false }
    ∧ hookConnectChained { flags0 := 0, sockOk := false, getflOk := true, engine := .ok () }
      = { ret := -1, flags := 0, scratchClosed := true, errnoConnRefused := false } := by
  refine ⟨⟨?_, ?_⟩, ?_, ?_⟩ <;> decide

/-! ## C2 -/

/-- C2 counterexample: negotiating a hop that has user/password auth
configured while its next hop (here the Raw target, as in the final
chain_step) has none, the count byte sent is 1 where the claim requires 2
matching the method byte 0x02. -/
theorem socks5_methods_count_counterexample :
    socks5MethodPacket rawTargetW (some authW) = [5, 1, 2] ∧ (1 : Nat) ≠ 2 := by
  refine ⟨?_, ?_⟩ <;> decide

/-- C2 amended: the NMETHODS count byte of the negotiation packet is keyed
on the auth field of the next hop (the target argument of the driver), 2
when that hop has auth configured and 1 otherwise, while the single method
byte actually sent is keyed on the auth of the hop being negotiated; the
packet always carries exactly one method byte, so the two bytes need not
agree. -/
theorem socks5_methods_count_amended (target : ProxyConf) (auth : Option Auth) :
    ((socks5MethodPacket target auth).get? 1 = some 2 ↔ target.auth.isSome = true)
    ∧ ((socks5MethodPacket target auth).get? 1 = some 1 ↔ target.auth.isSome = false)
    ∧ (socks5MethodPacket target auth).get? 2 = some (authId auth)
    ∧ (socks5MethodPacket target auth).length = 3 := by
  rcases target with ⟨proto, ip, port, tauth⟩
  cases tauth <;> simp [socks5MethodPacket]

/-! ## C3 -/

/-- C3 counterexample: when poll_retry reports a timeout inside the
EINPROGRESS block, timed_connect propagates the error with the
question-mark operator and returns with the socket still non-blocking:
the toggle applied at entry is not undone on this return path. -/
theorem timed_connect_toggle_counterexample :
    timedConnect envTimeoutW = (.error .Timeout, oNONBLOCK) ∧ oNONBLOCK ≠ 0 := by
  refine ⟨?_, ?_⟩ <;> decide

/-- C3 amended: the non-blocking toggle is undone exactly on the paths
that fall out of the EINPROGRESS polling block; the early returns inside
it (poll_retry error, poll result other than 1, socket-error readout
failing or reporting a pending error) return with O_NONBLOCK still set.
In particular every successful return has the toggle undone. -/
theorem timed_connect_flag_amended (env : ConnEnv) :
    ((timedConnect env).fst = .ok () → (timedConnect env).snd = 0)
    ∧ ((timedConnect env).snd = oNONBLOCK ↔ timedConnectEarlyExit env = true)
    ∧ ((timedConnect env).snd = 0 ∨ (timedConnect env).snd = oNONBLOCK) := by
  rcases env with ⟨res, cerr, pollRes, sockErr⟩
  simp only [timedConnect, timedConnectTail, timedConnectEarlyExit]
  by_cases h1 : res = -1 ∧ cerr = einprogress
  · rw [if_pos h1]
    rcases pollRes with e | ret
    · simp [h1, oNONBLOCK]
    · by_cases hret : ret = 1
      · rcases sockErr with e | v
        · simp [h1, hret, oNONBLOCK]
        · rcases v with _ | v
          · by_cases hres : (res : Int) = -1
            · by_cases herr : cerr = einprogress
              · simp [hres, herr, hret, oNONBLOCK]
              · exact absurd h1.2 herr
            · exact absurd h1.1 hres
          · simp [h1, hret, oNONBLOCK]
      · simp [h1, hret, oNONBLOCK]
  · rw [if_neg h1]
    have h2 : (decide (res = -1) && (cerr == einprogress)) = false := by
      rcases Decidable.not_and_iff_or_not.mp h1 with h | h <;> simp [h]
    by_cases hres : (res : Int) = -1
    · by_cases herr : cerr = einprogress
      · exact absurd ⟨hres, herr⟩ h1
      · simp [hres, herr, h2, oNONBLOCK]
    · simp [hres, h2, oNONBLOCK]

/-- C3 amended witness: an immediately successful connect returns Ok with
the toggle undone. -/
theorem timed_connect_flag_amended_witness :
    ((timedConnect envOkW).fst = .ok () → (timedConnect envOkW).snd = 0)
    ∧ ((timedConnect envOkW).snd = oNONBLOCK ↔ timedConnectEarlyExit envOkW = true)
    ∧ ((timedConnect envOkW).snd = 0 ∨ (timedConnect envOkW).snd = oNONBLOCK) :=
  timed_connect_flag_amended envOkW

/-! ## C7 -/

/-- C7: the claim states that neither resolver hook returns a synthetic
address for a hostname that parses as a numeric IP literal. The
getaddrinfo hook does check with inet_aton/inet_pton, but
proxyc_gethostbyname has no numeric check (only TODO comments), so the
gethostbyname hook under proxy_dns assigns a fake-DNS table entry to the
literal 1.2.3.4 and returns the synthetic address 224.0.0.1. -/
theorem gethostbyname_numeric_literal_gets_synthetic (realResolver : String → Option Nat) :
    hookGethostbyname cfgW { table := [], idx := 0 } realResolver ("1.2.3.4")
      = (some (ofOctets 224 0 0 1), { table := [(1, ("1.2.3.4"))], idx := 1 })
    ∧ ofOctets 224 0 0 1 = makeAddr cfgW 1 := by
  exact ⟨rfl, rfl⟩

/-! ## C10 -/

/-- C10: with node null, proxyc_getaddrinfo dereferences hints to read
ai_flags before any null check, so the call has no defined result when
hints is null as well (POSIX permits that combination); with any non-null
hints the call is defined. -/
theorem getaddrinfo_null_node_null_hints_undefined (cfg : ProxycConfig)
    (s : InternalIpAddr) (numParse : String → Option Nat)
    (servLookup : String → Option Nat) (atoiBE : String → Nat)
    (service : Option String) :
    proxycGetaddrinfo cfg s numParse servLookup atoiBE none service none = none
    ∧ ∀ h : Hints,
        (proxycGetaddrinfo cfg s numParse servLookup atoiBE none service (some h)).isSome
          = true := by
  constructor
  · rfl
  · intro h
    simp only [proxycGetaddrinfo]
    by_cases hp : h.aiFlags &&& aiPassive != 0 <;> simp [hp]

/-! ## C6 -/

/-- C6: the address portion of the SOCKS5 CONNECT request starts with
ATYP 3 (DOMAINNAME), carrying the reverse-mapped hostname, exactly when
proxy_dns is enabled, the next hop is an IPv4 address whose leading octet
equals dns_subnet, and the reverse lookup hits; otherwise it starts with
ATYP 1 for an IPv4 next hop and ATYP 4 for an IPv6 next hop. -/
theorem socks5_atyp_selection (cfg : ProxycConfig) (s : InternalIpAddr) (target : ProxyConf) :
    ((socks5AddrBytes cfg s target).head? = some 3 ↔
      (cfg.proxyDns = true ∧ ∃ n hn, target.ip = .v4 n ∧ n / 16777216 % 256 = cfg.dnsSubnet ∧
        getHostname s n = .ok hn ∧ socks5AddrBytes cfg s target = writeHostname target hn))
    ∧ ((socks5AddrBytes cfg s target).head? ≠ some 3 →
        (∀ n, target.ip = .v4 n → (socks5AddrBytes cfg s target).head? = some 1)
        ∧ (∀ b, target.ip = .v6 b → (socks5AddrBytes cfg s target).head? = some 4)) := by
  rcases target with ⟨proto, ip, port, tauth⟩
  rcases ip with n | b
  · by_cases hdns : cfg.proxyDns
    · by_cases hoct : n / 16777216 % 256 = cfg.dnsSubnet
      · rcases hgh : getHostname s n with e | hn
        · simp [socks5AddrBytes, findIpHostname, writeAddrBytes, hdns, hoct, hgh]
        · simp [socks5AddrBytes, findIpHostname, writeHostname, hdns, hoct, hgh]
      · simp [socks5AddrBytes, findIpHostname, writeAddrBytes, hdns, hoct]
    · simp [socks5AddrBytes, findIpHostname, writeAddrBytes, hdns]
  · by_cases hdns : cfg.proxyDns <;>
      simp [socks5AddrBytes, findIpHostname, writeAddrBytes, hdns]

/-! ## C4 -/

/-- With an all-success oracle, chain_step succeeds and emits exactly its
driver-invocation events (none for Raw). -/
theorem chainStep_ok (orc : Nat → Except Error Unit) (hok : ∀ k, orc k = .ok ())
    (k : Nat) (pfrom pto : ProxyConf) :
    ∃ k1, chainStep orc k pfrom pto = (.ok (), stepEvents pfrom pto, k1) := by
  cases hp : pfrom.proto
  · exact ⟨k, by simp [chainStep, stepEvents, hp]⟩
  · exact ⟨k + 1, by simp [chainStep, stepEvents, hp, hok k]⟩
  · exact ⟨k + 1, by simp [chainStep, stepEvents, hp, hok k]⟩
  · exact ⟨k + 1, by simp [chainStep, stepEvents, hp, hok k]⟩

/-- With an all-success oracle, the windows loop succeeds and emits the
pairwise driver invocations in configured order. -/
theorem chainLoop_ok (orc : Nat → Except Error Unit) (hok : ∀ k, orc k = .ok ()) :
    ∀ (ps : List ProxyConf) (k : Nat), ∃ k2,
      chainLoop orc k ps
        = (.ok (), (ps.zip ps.tail).flatMap (fun w => stepEvents w.1 w.2), k2) := by
  intro ps
  induction ps with
  | nil => intro k; exact ⟨k, rfl⟩
  | cons p1 tl ih =>
    intro k
    cases tl with
    | nil => exact ⟨k, rfl⟩
    | cons p2 rest =>
      obtain ⟨k1, hstep⟩ := chainStep_ok orc hok k p1 p2
      obtain ⟨k2, hloop⟩ := ih k1
      refine ⟨k2, ?_⟩
      simp only [chainLoop, hstep, hloop, List.tail_cons, List.zip_cons_cons,
        List.flatMap_cons]

/-- C4: under chain_type Strict with configured proxies p1 .. pn and caller
target t, when every step succeeds the scratch socket is first
timed-connected to p1 under the tcp_connect_timeout budget, then for each
adjacent pair the driver of the earlier hop is invoked with the later hop
as next hop, then the driver of pn is invoked with the Raw spec built from
t (Raw itself being a no-op emitting nothing), and finally dup2 of the
scratch fd over the caller fd followed by closing the scratch fd. -/
theorem strict_chain_traversal (cfg : ProxycConfig) (orc : Nat → Except Error Unit)
    (sock ns : Nat) (tip : IpAddr) (tport : Nat) (p1 : ProxyConf) (rest : List ProxyConf)
    (hps : cfg.proxies = p1 :: rest) (hct : cfg.chainType = .Strict)
    (hok : ∀ k, orc k = .ok ()) :
    connectProxyc cfg orc sock ns tip tport
      = (.ok (), ChainEvent.start p1 cfg.tcpConnectTimeout ::
          (((cfg.proxies.zip cfg.proxies.tail).flatMap fun w => stepEvents w.1 w.2)
            ++ stepEvents ((p1 :: rest).getLast (List.cons_ne_nil p1 rest))
                { proto := .Raw, ip := tip, port := tport, auth := none }
            ++ [ChainEvent.dupTwo ns sock, ChainEvent.closeFd ns])) := by
  obtain ⟨k2, hloop⟩ := chainLoop_ok orc hok (p1 :: rest) 1
  obtain ⟨k3, hstep⟩ := chainStep_ok orc hok k2
    ((p1 :: rest).getLast (List.cons_ne_nil p1 rest))
    { proto := .Raw, ip := tip, port := tport, auth := none }
  simp only [connectProxyc, hct, hps, hok 0, hloop, hstep]

/-- C4 witness: a concrete two-hop strict chain (HTTP then SOCKS5) with an
all-success oracle. -/
theorem strict_chain_traversal_witness :
    connectProxyc cfgChainW orcOkW 3 4 (.v4 (ofOctets 192 0 2 1)) 443
      = (.ok (), ChainEvent.start p1W cfgChainW.tcpConnectTimeout ::
          (((cfgChainW.proxies.zip cfgChainW.proxies.tail).flatMap fun w => stepEvents w.1 w.2)
            ++ stepEvents ((p1W :: [p2W]).getLast (List.cons_ne_nil p1W [p2W]))
                { proto := .Raw, ip := .v4 (ofOctets 192 0 2 1), port := 443, auth := none }
            ++ [ChainEvent.dupTwo 4 3, ChainEvent.closeFd 4])) :=
  strict_chain_traversal cfgChainW orcOkW 3 4 (.v4 (ofOctets 192 0 2 1)) 443 p1W [p2W]
    rfl rfl (fun _ => rfl)

/-! ## C5 -/

/-- A terminator match at len requires the byte at index len-1 to have
been deliverable, so len is at most the number of available bytes. -/
theorem isTermAt_le {resp : List Nat} {k : Nat} (h : isTermAt resp k = true) :
    k ≤ resp.length := by
  by_contra hk
  push_neg at hk
  have h1 : resp.getD (k - 1) 0 = 0 := List.getD_eq_default resp 0 (by omega)
  unfold isTermAt at h
  rw [Bool.and_eq_true, Bool.and_eq_true, Bool.and_eq_true] at h
  have h2 := h.1.1.1
  rw [h1] at h2
  exact absurd h2 (by decide)

/-- Closed form of the read loop: it returns the first break position
found by scanning the candidate lens, and otherwise runs the fuel out
(succeeding only when every read byte was available). -/
theorem httpReadLoop_eq (resp : List Nat) :
    ∀ (fuel len : Nat),
      httpReadLoop resp len fuel
        = match (List.range' (len + 1) fuel).find?
            (fun k => decide (4 < k) && isTermAt resp k) with
          | some k => .ok k
          | none =>
            if fuel = 0 ∨ len + fuel ≤ resp.length then .ok (len + fuel)
            else .error .Timeout := by
  intro fuel
  induction fuel with
  | zero =>
    intro len
    simp [httpReadLoop]
  | succ fuel ih =>
    intro len
    rcases hget : resp.get? len with _ | b
    · have hlen : resp.length ≤ len := List.get?_eq_none.mp hget
      have hfind : (List.range' (len + 1) (fuel + 1)).find?
          (fun k => decide (4 < k) && isTermAt resp k) = none := by
        rw [List.find?_eq_none]
        intro k hk hp
        have hk2 : len + 1 ≤ k := (List.mem_range'_1.mp hk).1
        rw [Bool.and_eq_true] at hp
        have hkle := isTermAt_le hp.2
        omega
      have hcond : ¬(fuel + 1 = 0 ∨ len + (fuel + 1) ≤ resp.length) := by omega
      simp only [httpReadLoop, hget]
      rw [hfind]
      simp [hcond]
      rw [if_neg (by omega)]
    · have hlt : len < resp.length := by
        by_contra hc
        push_neg at hc
        rw [List.get?_eq_none.mpr hc] at hget
        cases hget
      by_cases hterm : (decide (4 < len + 1) && isTermAt resp (len + 1)) = true
      · have hfind : (List.range' (len + 1) (fuel + 1)).find?
            (fun k => decide (4 < k) && isTermAt resp k) = some (len + 1) := by
          rw [List.range'_succ]
          exact List.find?_cons_of_pos _ hterm
        simp only [httpReadLoop, hget, hterm, if_true]
        rw [hfind]
      · have hfind : (List.range' (len + 1) (fuel + 1)).find?
            (fun k => decide (4 < k) && isTermAt resp k)
            = (List.range' (len + 1 + 1) fuel).find?
                (fun k => decide (4 < k) && isTermAt resp k) := by
          rw [List.range'_succ]
          exact List.find?_cons_of_neg _ hterm
        simp only [httpReadLoop, hget, hterm, if_false]
        rw [ih (len + 1), hfind]
        rcases hf : (List.range' (len + 1 + 1) fuel).find?
            (fun k => decide (4 < k) && isTermAt resp k) with _ | k
        · by_cases hble : len + 1 + fuel ≤ resp.length
          · have h1 : fuel = 0 ∨ len + 1 + fuel ≤ resp.length := Or.inr hble
            have h2 : fuel + 1 = 0 ∨ len + (fuel + 1) ≤ resp.length := by omega
            have harith : len + 1 + fuel = len + (fuel + 1) := by omega
            simp [h1, h2, harith]
            rw [if_pos (Or.inr (by omega)), if_pos (by omega)]
          · have h1 : ¬(fuel = 0 ∨ len + 1 + fuel ≤ resp.length) := by omega
            have h2 : ¬(fuel + 1 = 0 ∨ len + (fuel + 1) ≤ resp.length) := by omega
            simp [h1, h2]
            rw [if_neg (by omega)]
        · rfl

/-- C5 amended: the HTTP driver succeeds exactly when the first candidate
break position k in 1..1024 (that is, k greater than 4 with the four bytes
ending at index k-1 equal to CR LF CR LF) exists, is not 1024, is at least
12, and the response bytes at positions 9, 10, 11 are the ASCII digits
2, 0, 0. A terminator occupying bytes 0 to 3 is never detected (the loop
requires len greater than 4), and a terminator ending exactly at index
1023 is found but rejected by the len equal 1024 check. -/
theorem http_accepts_iff (resp : List Nat) :
    httpConnect resp = .ok () ↔
      ∃ k, httpFirstTerm resp = some k ∧ k ≠ 1024 ∧ 12 ≤ k ∧
        resp.getD 9 0 = 50 ∧ resp.getD 10 0 = 48 ∧ resp.getD 11 0 = 48 := by
  have hloop := httpReadLoop_eq resp 1024 0
  have hft : httpFirstTerm resp
      = (List.range' (0 + 1) 1024).find? (fun k => decide (4 < k) && isTermAt resp k) := rfl
  unfold httpConnect
  rw [hloop, ← hft]
  rcases hf : httpFirstTerm resp with _ | k
  · by_cases hc : (1024 = 0 ∨ 0 + 1024 ≤ resp.length)
    · rw [if_pos hc]
      simp
    · rw [if_neg hc]
      simp
  · simp only []
    by_cases h12 : 12 ≤ k
    · have hb9 : bufAt resp k 9 = resp.getD 9 0 := if_pos (by omega)
      have hb10 : bufAt resp k 10 = resp.getD 10 0 := if_pos (by omega)
      have hb11 : bufAt resp k 11 = resp.getD 11 0 := if_pos (by omega)
      by_cases hk1024 : k = 1024
      · simp [hk1024]
      · simp [hb9, hb10, hb11, hk1024, h12, beq_iff_eq, and_assoc]
    · have hb11 : bufAt resp k 11 = 0 := if_neg (by omega)
      simp [hb11, h12]

/-- C5 counterexample: a response that opens with the terminator CR LF CR
LF within its first 1024 bytes and whose bytes 9, 10, 11 are the digits
2, 0, 0 — accepted by the claim as stated — makes the driver fail: the
loop never tests positions 0 to 3, finds no later terminator, and times
out waiting for a 13th byte. -/
theorem http_accepts_counterexample :
    claimHttpAccepts respW = true ∧ httpConnect respW = .error .Timeout := by
  constructor
  · have hany : ((List.range 1021).any fun j =>
        (respW.getD j 0 == 13) && (respW.getD (j + 1) 0 == 10) &&
        (respW.getD (j + 2) 0 == 13) && (respW.getD (j + 3) 0 == 10)) = true := by
      apply List.any_eq_true.mpr
      exact ⟨0, List.mem_range.mpr (by omega), by decide⟩
    unfold claimHttpAccepts
    rw [hany]
    decide
  · decide

/-! ## Table lemmas for C8 and C9 -/

/-- With pairwise distinct keys, lookup finds the entry of a member. -/
theorem lookupTbl_eq_some_of_mem {t : List (Nat × String)} {k : Nat} {v : String}
    (hnd : t.Pairwise (fun a b => a.fst ≠ b.fst ∧ a.snd ≠ b.snd))
    (hmem : (k, v) ∈ t) : lookupTbl t k = some v := by
  induction t with
  | nil => cases hmem
  | cons e tl ih =>
    rcases List.mem_cons.mp hmem with he | htl
    · rw [← he]
      unfold lookupTbl
      simp only [List.find?]
      rw [show (((k, v) : Nat × String).fst == k) = true from by simp]
      rfl
    · have hk2 : (e.fst == k) = false := by
        have hpc := (List.pairwise_cons.mp hnd).1 (k, v) htl
        simp only [beq_eq_false_iff_ne]
        exact hpc.1
      unfold lookupTbl
      simp only [List.find?]
      rw [hk2]
      exact ih (List.pairwise_cons.mp hnd).2 htl

/-- A successful lookup comes from a member entry. -/
theorem mem_of_lookupTbl_eq_some {t : List (Nat × String)} {k : Nat} {v : String}
    (h : lookupTbl t k = some v) : (k, v) ∈ t := by
  unfold lookupTbl at h
  rcases hf : t.find? (fun e => e.fst == k) with _ | e
  · rw [hf] at h; cases h
  · rw [hf] at h
    have hmem := List.mem_of_find?_eq_some hf
    have hk : e.fst = k := by
      have := List.find?_some hf
      simpa using this
    have hv : e.snd = v := by simpa using h
    have he : e = (k, v) := by
      rcases e with ⟨a, b⟩
      simp only at hk hv
      rw [hk, hv]
    rw [← he]
    exact hmem

/-- With pairwise distinct hostnames, a hostname determines its key. -/
theorem key_unique_of_snd {t : List (Nat × String)} {k1 k2 : Nat} {v : String}
    (hnd : t.Pairwise (fun a b => a.fst ≠ b.fst ∧ a.snd ≠ b.snd))
    (h1 : (k1, v) ∈ t) (h2 : (k2, v) ∈ t) : k1 = k2 := by
  induction t with
  | nil => cases h1
  | cons e tl ih =>
    have hpc := List.pairwise_cons.mp hnd
    rcases List.mem_cons.mp h1 with he1 | ht1 <;> rcases List.mem_cons.mp h2 with he2 | ht2
    · have h3 : (k1, v) = (k2, v) := he1.trans he2.symm
      cases h3
      rfl
    · exfalso
      have hrel := hpc.1 (k2, v) ht2
      rw [← he1] at hrel
      exact hrel.2 rfl
    · exfalso
      have hrel := hpc.1 (k1, v) ht1
      rw [← he2] at hrel
      exact hrel.2 rfl
    · exact ih hpc.2 ht1 ht2

/-- find? returns the unique element satisfying the predicate. -/
theorem find?_of_unique {p : Nat → Bool} {l : List Nat} {a : Nat}
    (hmem : a ∈ l) (hpa : p a = true) (huniq : ∀ b ∈ l, p b = true → b = a) :
    l.find? p = some a := by
  induction l with
  | nil => cases hmem
  | cons x xs ih =>
    by_cases hx : p x = true
    · have hxa : x = a := huniq x (List.mem_cons_self x xs) hx
      rw [List.find?_cons_of_pos _ hx, hxa]
    · rw [List.find?_cons_of_neg _ hx]
      have hmem2 : a ∈ xs := by
        rcases List.mem_cons.mp hmem with he | h
        · rw [← he] at hx; exact absurd hpa hx
        · exact h
      exact ih hmem2 (fun b hb hpb => huniq b (List.mem_cons_of_mem x hb) hpb)

/-- A successful assign_addr implies the counter had room. -/
theorem assignAddr_room {cfg : ProxycConfig} {s s1 : InternalIpAddr} {hn : String}
    {ip : Nat} (h : assignAddr cfg s hn = (.ok ip, s1)) : s.idx + 1 ≤ 16777215 := by
  by_contra hc
  push_neg at hc
  unfold assignAddr at h
  rw [if_pos hc] at h
  simp at h

/-- assign_addr on a hostname already in a well-formed table returns the
existing synthetic address and only increments the counter. -/
theorem assignAddr_hit (cfg : ProxycConfig) {s : InternalIpAddr} {hn : String} {i : Nat}
    (hwf : WFState s) (hmem : (i, hn) ∈ s.table) (hroom : s.idx + 1 ≤ 16777215) :
    assignAddr cfg s hn = (.ok (makeAddr cfg i), { s with idx := s.idx + 1 }) := by
  have hbounds := hwf.1 (i, hn) hmem
  have hlk : lookupTbl s.table i = some hn := lookupTbl_eq_some_of_mem hwf.2 hmem
  have hfind : (List.range' 1 s.idx).find? (fun j => lookupTbl s.table j == some hn)
      = some i := by
    apply find?_of_unique
    · exact List.mem_range'_1.mpr ⟨hbounds.1, by have := hbounds.2.1; omega⟩
    · simp [hlk]
    · intro b hb hpb
      have hlkb : lookupTbl s.table b = some hn := by simpa using hpb
      exact key_unique_of_snd hwf.2 (mem_of_lookupTbl_eq_some hlkb) hmem
  unfold assignAddr
  rw [if_neg (by omega)]
  rw [if_pos (by have := hbounds.1; have := hbounds.2.1; omega), hfind]

/-- Every assign_addr call increments the counter, keeps all existing
entries and preserves well-formedness. -/
theorem assignAddr_WF (cfg : ProxycConfig) {s s1 : InternalIpAddr} {hn : String}
    {r : Except Error Nat} (hwf : WFState s) (h : assignAddr cfg s hn = (r, s1)) :
    WFState s1 ∧ s1.idx = s.idx + 1 ∧ (∀ e ∈ s.table, e ∈ s1.table) := by
  unfold assignAddr at h
  by_cases hex : 16777215 < s.idx + 1
  · rw [if_pos hex] at h
    injection h with h1 h2
    subst h2
    refine ⟨⟨?_, hwf.2⟩, rfl, fun e he => he⟩
    intro e he
    have hb := hwf.1 e he
    refine ⟨hb.1, ?_, hb.2.2⟩
    show e.fst ≤ s.idx + 1
    have := hb.2.1
    omega
  · rw [if_neg hex] at h
    rcases hscan : (if 1 < s.idx + 1 then
        (List.range' 1 s.idx).find? (fun j => lookupTbl s.table j == some hn)
      else none) with _ | i
    · rw [hscan] at h
      injection h with h1 h2
      subst h2
      have hne : ∀ e ∈ s.table, e.snd ≠ hn := by
        intro e he hcon
        have hlk : lookupTbl s.table e.fst = some e.snd := lookupTbl_eq_some_of_mem hwf.2 he
        have hb := hwf.1 e he
        by_cases hg : 1 < s.idx + 1
        · rw [if_pos hg] at hscan
          have hnone := List.find?_eq_none.mp hscan e.fst
            (List.mem_range'_1.mpr ⟨hb.1, by have := hb.2.1; omega⟩)
          apply hnone
          simp [hlk, hcon]
        · have := hb.1
          have := hb.2.1
          omega
      constructor
      · constructor
        · intro e he
          rcases List.mem_cons.mp he with he1 | he2
          · rw [he1]
            refine ⟨?_, ?_, ?_⟩
            · show 1 ≤ s.idx + 1
              omega
            · show s.idx + 1 ≤ s.idx + 1
              omega
            · show s.idx + 1 ≤ 16777215
              omega
          · have hb := hwf.1 e he2
            refine ⟨hb.1, ?_, hb.2.2⟩
            show e.fst ≤ s.idx + 1
            have := hb.2.1
            omega
        · rw [List.pairwise_cons]
          refine ⟨?_, hwf.2⟩
          intro e he
          have hb := hwf.1 e he
          refine ⟨?_, fun hcon => hne e he hcon.symm⟩
          show s.idx + 1 ≠ e.fst
          have := hb.2.1
          omega
      · exact ⟨rfl, fun e he => List.mem_cons_of_mem _ he⟩
    · rw [hscan] at h
      injection h with h1 h2
      subst h2
      refine ⟨⟨?_, hwf.2⟩, rfl, fun e he => he⟩
      intro e he
      have hb := hwf.1 e he
      refine ⟨hb.1, ?_, hb.2.2⟩
      show e.fst ≤ s.idx + 1
      have := hb.2.1
      omega

/-- Well-formedness, the counter lower bound and table entries persist
along any sequence of assign_addr calls. -/
theorem Reach_persist (cfg : ProxycConfig) {s t : InternalIpAddr} (hr : Reach cfg s t)
    (hwf : WFState s) :
    WFState t ∧ s.idx ≤ t.idx ∧ (∀ e ∈ s.table, e ∈ t.table) := by
  induction hr with
  | refl => exact ⟨hwf, le_refl _, fun e he => he⟩
  | step t u hn r hst hassign ih =>
    obtain ⟨hwt, hidx, hmem⟩ := ih
    obtain ⟨hwu, hidxe, hmem2⟩ := assignAddr_WF cfg hwt hassign
    exact ⟨hwu, by omega, fun e he => hmem2 e (hmem e he)⟩

/-- A successful assign_addr leaves the hostname in the table at some
index within bounds and returns the synthetic address of that index. -/
theorem assignAddr_ok_mem (cfg : ProxycConfig) {s s1 : InternalIpAddr} {hn : String}
    {ip : Nat} (h : assignAddr cfg s hn = (.ok ip, s1)) :
    ∃ i, 1 ≤ i ∧ i ≤ s1.idx ∧ i ≤ 16777215 ∧ (i, hn) ∈ s1.table ∧ ip = makeAddr cfg i := by
  have hroom := assignAddr_room h
  unfold assignAddr at h
  rw [if_neg (by omega)] at h
  rcases hscan : (if 1 < s.idx + 1 then
      (List.range' 1 s.idx).find? (fun j => lookupTbl s.table j == some hn)
    else none) with _ | i
  · rw [hscan] at h
    injection h with h1 h2
    injection h1 with h1
    subst h2
    exact ⟨s.idx + 1, by omega, le_refl _, hroom, List.mem_cons_self _ _, h1.symm⟩
  · rw [hscan] at h
    injection h with h1 h2
    injection h1 with h1
    subst h2
    have hg : 1 < s.idx + 1 := by
      by_contra hg
      rw [if_neg hg] at hscan
      cases hscan
    rw [if_pos hg] at hscan
    have hmemr := List.mem_of_find?_eq_some hscan
    have hlk : lookupTbl s.table i = some hn := by
      have := List.find?_some hscan
      simpa using this
    have hmem := mem_of_lookupTbl_eq_some hlk
    have hrange := List.mem_range'_1.mp hmemr
    exact ⟨i, hrange.1, by have := hrange.2; simp; omega,
      by have := hrange.2; omega, hmem, h1.symm⟩

/-- The low 24 bits of a synthetic address recover its index. -/
theorem makeAddr_mod (cfg : ProxycConfig) {i : Nat} (hi : i < 16777216) :
    makeAddr cfg i % 16777216 = i := by
  unfold makeAddr ofOctets
  omega

/-! ## C8 -/

/-- C8: starting from a well-formed table state, once assign has returned
a synthetic address for a hostname, every later successful assign of the
same hostname — after any interleaved assigns of other hostnames —
returns the same address; that address is the makeAddr image of the
hostname index (dns_subnet in the leading octet and the three low-order
bytes of the index), and looking it up through get_hostname, which masks
the address to its low 24 bits, returns the hostname. -/
theorem assign_idempotent_reversible (cfg : ProxycConfig)
    (s0 s1 s2 s3 : InternalIpAddr) (hn : String) (ip ip2 : Nat)
    (hwf : WFState s0)
    (h1 : assignAddr cfg s0 hn = (.ok ip, s1))
    (hr : Reach cfg s1 s2)
    (h2 : assignAddr cfg s2 hn = (.ok ip2, s3)) :
    ip2 = ip ∧
    ∃ i, i ≤ 16777215 ∧ lookupTbl s1.table i = some hn ∧ ip = makeAddr cfg i ∧
      getHostname s3 (makeAddr cfg i) = .ok hn := by
  obtain ⟨hwf1, -, -⟩ := assignAddr_WF cfg hwf h1
  obtain ⟨i, hi1, hi2, hi3, himem, hip⟩ := assignAddr_ok_mem cfg h1
  obtain ⟨hwf2, hidx2, hmem2⟩ := Reach_persist cfg hr hwf1
  have himem2 : (i, hn) ∈ s2.table := hmem2 _ himem
  have hroom2 : s2.idx + 1 ≤ 16777215 := assignAddr_room h2
  have hhit := assignAddr_hit cfg hwf2 himem2 hroom2
  rw [hhit] at h2
  injection h2 with h2a h2b
  injection h2a with h2a
  constructor
  · rw [← h2a, hip]
  · refine ⟨i, hi3, lookupTbl_eq_some_of_mem hwf1.2 himem, hip, ?_⟩
    rw [← h2b]
    unfold getHostname
    rw [makeAddr_mod cfg (by omega)]
    have htbl : ({ s2 with idx := s2.idx + 1 } : InternalIpAddr).table = s2.table := rfl
    rw [htbl, lookupTbl_eq_some_of_mem hwf2.2 himem2]

/-- C8 witness: a concrete run — assign example.com into the empty table,
assign it again, get the same synthetic address back, and reverse-map it. -/
theorem assign_idempotent_reversible_witness :
    makeAddr cfgW 1 = makeAddr cfgW 1 ∧
    ∃ i, i ≤ 16777215 ∧ lookupTbl ({ table := [(1, hnW)], idx := 1 } : InternalIpAddr).table i
        = some hnW ∧ makeAddr cfgW 1 = makeAddr cfgW i ∧
      getHostname { table := [(1, hnW)], idx := 2 } (makeAddr cfgW i) = .ok hnW :=
  assign_idempotent_reversible cfgW { table := [], idx := 0 }
    { table := [(1, hnW)], idx := 1 } { table := [(1, hnW)], idx := 1 }
    { table := [(1, hnW)], idx := 2 } hnW (makeAddr cfgW 1) (makeAddr cfgW 1)
    ⟨fun e he => absurd he (List.not_mem_nil e), List.Pairwise.nil⟩
    rfl (Reach.refl _) rfl

/-! ## C9 -/

/-- C9 counterexample: assigning a hostname already in the table (index 1,
counter 1) returns the existing synthetic address and leaves the table
unchanged, but the counter advances to 2 — the claim says it stays 1. -/
theorem assign_existing_counter_changes :
    (assignAddr cfgW { table := [(1, hnW)], idx := 1 } hnW).fst = .ok (makeAddr cfgW 1)
    ∧ (assignAddr cfgW { table := [(1, hnW)], idx := 1 } hnW).snd.table = [(1, hnW)]
    ∧ (assignAddr cfgW { table := [(1, hnW)], idx := 1 } hnW).snd.idx = 2
    ∧ (2 : Nat) ≠ 1 := by
  refine ⟨rfl, rfl, rfl, by decide⟩

/-- C9 amended: when assign is called with a hostname already present in a
well-formed table with room, it returns the existing synthetic address and
leaves the table unchanged, but the index counter is incremented on every
call (self.idx += 1 runs before the duplicate scan and is never undone);
consequently the exhaustion error is reachable through repeated
assignment of already-known hostnames, not only after 2^24 - 1 distinct
ones. -/
theorem assign_existing_behavior (cfg : ProxycConfig) (s : InternalIpAddr) (hn : String)
    (i : Nat) (hwf : WFState s) (hmem : (i, hn) ∈ s.table) (hroom : s.idx + 1 ≤ 16777215) :
    (assignAddr cfg s hn).fst = .ok (makeAddr cfg i)
    ∧ (assignAddr cfg s hn).snd.table = s.table
    ∧ (assignAddr cfg s hn).snd.idx = s.idx + 1 := by
  rw [assignAddr_hit cfg hwf hmem hroom]
  exact ⟨rfl, rfl, rfl⟩

/-- C9 amended witness: the duplicate assignment of the concrete state. -/
theorem assign_existing_behavior_witness :
    (assignAddr cfgW { table := [(1, hnW)], idx := 1 } hnW).fst = .ok (makeAddr cfgW 1)
    ∧ (assignAddr cfgW { table := [(1, hnW)], idx := 1 } hnW).snd.table
        = ({ table := [(1, hnW)], idx := 1 } : InternalIpAddr).table
    ∧ (assignAddr cfgW { table := [(1, hnW)], idx := 1 } hnW).snd.idx = 1 + 1 :=
  assign_existing_behavior cfgW { table := [(1, hnW)], idx := 1 } hnW 1
    ⟨fun e he => by
        rw [List.mem_singleton] at he
        rw [he]
        exact ⟨le_refl 1, le_refl 1, by omega⟩,
      List.pairwise_singleton _ _⟩
    (List.mem_singleton.mpr rfl) (by show (1 : Nat) + 1 ≤ 16777215; omega)

/-- Duplicate assignments alone drive the counter upward: from the state
holding only one hostname at index 1, n further calls with that hostname
reach counter 1 + n. -/
theorem reach_dup (cfg : ProxycConfig) :
    ∀ n : Nat, 1 + n ≤ 16777215 →
      Reach cfg { table := [(1, hnW)], idx := 1 } { table := [(1, hnW)], idx := 1 + n } := by
  intro n
  induction n with
  | zero => intro _; exact Reach.refl _
  | succ n ih =>
    intro hle
    have hwfk : WFState { table := [(1, hnW)], idx := 1 + n } :=
      ⟨fun e he => by
          rw [List.mem_singleton] at he
          rw [he]
          exact ⟨le_refl 1, by show (1 : Nat) ≤ 1 + n; omega, by omega⟩,
        List.pairwise_singleton _ _⟩
    refine Reach.step _ _ _ hnW (.ok (makeAddr cfg 1)) (ih (by omega)) ?_
    exact assignAddr_hit cfg hwfk (List.mem_singleton.mpr rfl) (by show 1 + n + 1 ≤ 16777215; omega)

/-- Exhaustion is reachable with a single distinct hostname: after
16777214 duplicate assignments of the hostname at index 1, the next call
fails with the exhaustion error even though only one hostname was ever
assigned. -/
theorem assign_exhaustion_single_hostname (cfg : ProxycConfig) :
    ∃ s : InternalIpAddr, Reach cfg { table := [(1, hnW)], idx := 1 } s ∧
      (assignAddr cfg s hnW).fst = .error (.Generic ("exhausted internal ip addresses")) := by
  refine ⟨{ table := [(1, hnW)], idx := 1 + 16777214 }, reach_dup cfg 16777214 (by omega), ?_⟩
  unfold assignAddr
  rw [if_pos (by show 16777215 < 1 + 16777214 + 1; omega)]

end Proxyc
